import Mathlib

/-!
Shallow embedding of the `seqvars ingest` pipeline of
`varfish-server-worker` (`src/seqvars/ingest/mod.rs`) and proofs of the
frozen claims about it.

The embedding follows the source:
  * `Value` models `noodles_vcf::record::genotypes::sample::Value`
    (float payloads are modelled as rationals; no float arithmetic is
    performed by the embedded code, only selection and copying);
  * `gtCaptures` models the leftmost greedy match of the regular
    expression from line 123 of the source;
  * `transform_format_value` models the function of the same name
    (lines 116-215), with `TfResult.panicked` standing for a Rust panic
    (an `expect`, `unreachable` or out-of-bounds index);
  * `output_keys`, `known_keys` and `known_to_output` model the static
    `KnownFormatKeys` table (lines 56-107);
  * `copy_format_output_keys` models the key-list computation of
    `copy_format` (lines 228-238);
  * `build_idx_output_to_input` models the sample re-indexing block of
    `process_variants` (lines 337-350), `none` standing for the panic of
    indexing a `HashMap` at a missing key;
  * `route_lookups` models the store dispatch (lines 397-438),
    parameterised by the external chromosome membership tables;
  * `process_loop` models the record loop of `process_variants`
    (lines 358-485), with the external annotation collaborators (store
    reads, effect predictor, serializer) modelled as total since they do
    not influence the decomposition, skip and limit control flow.
-/

set_option autoImplicit false

namespace VarfishIngest

/-- Genotype field values, modelling `sample::Value` of noodles-vcf.
Integers are VCF integers, floats are modelled as rationals (the
embedded code never computes with them). -/
inductive Value where
  | int : Int → Value
  | float : Rat → Value
  | str : String → Value
  | arrInt : List (Option Int) → Value
  | arrFloat : List (Option Rat) → Value
deriving DecidableEq

/-- One sample of a genotype block: an association of FORMAT key to
optional value, modelling `genotypes::Sample`. -/
def Sample : Type := List (String × Option Value)

/-- Modelling `Sample::get`: outer `none` when the key is absent from
the keys, inner `none` when the value is missing. -/
def sampleGet (sample : Sample) (key : String) : Option (Option Value) :=
  (sample.find? (fun p => p.1 = key)).map (fun p => p.2)

/-- Maximal prefix free of the bar character: one `[^\x7c]+` greedy
group of the GT regular expression. -/
def takeNonBar (l : List Char) : List Char :=
  l.takeWhile (fun c => c ≠ '|')

/-- Backtracking search for the split of the GT regular expression
group structure at one start position: group 1 lengths are tried from
`p` (the greedy maximum) downwards. -/
def trySplit (l : List Char) : Nat → Option (List Char × Char × List Char)
  | 0 => none
  | p + 1 =>
    match l.drop (p + 1) with
    | [] => trySplit l p
    | c :: rest =>
      if (c = '/' ∨ c = '|') ∧ takeNonBar rest ≠ [] then
        some (l.take (p + 1), c, takeNonBar rest)
      else
        trySplit l p

/-- Match of the GT regular expression at the start of `l`. -/
def matchFrom (l : List Char) : Option (List Char × Char × List Char) :=
  trySplit l (takeNonBar l).length

/-- Leftmost match of the GT regular expression
`([^\x7c]+)([/\x7c])([^\x7c]+)` (line 123 of the source): the start
position advances until a match is found. -/
def gtCaptures : List Char → Option (List Char × Char × List Char)
  | [] => none
  | c :: rest =>
    match matchFrom (c :: rest) with
    | some r => some r
    | none => gtCaptures rest

/-- `transform_allele` (lines 127-133): a side becomes "1" exactly when
it equals the current allele number in string form. -/
def transform_allele (allele_to_transform curr_allele : String) : String :=
  if allele_to_transform = curr_allele then "1" else "0"

/-- Result of `transform_format_value`: `transformed v` models
`Some(v)`, `skip` models `None` (caller falls through), `panicked msg`
models a Rust panic with that message. -/
inductive TfResult where
  | transformed : Option Value → TfResult
  | skip : TfResult
  | panicked : String → TfResult
deriving DecidableEq

/-- `transform_format_value` (lines 116-215 of the source). -/
def transform_format_value (value : Option Value) (key : String)
    (allele_no : Nat) (sample : Sample) : TfResult :=
  let curr_allele := toString allele_no
  match value with
  | none => .transformed none
  | some v =>
    if key = "GT" then
      match sampleGet sample "GT" with
      | none => .panicked "FORMAT/GT must be present"
      | some none => .panicked "FORMAT/GT must be present and not None"
      | some (some (.str gt)) =>
        if gt = "./." ∨ gt = ".|." ∨ gt = "." then
          .transformed (some (.str gt))
        else
          match gtCaptures gt.data with
          | none => .panicked "FORMAT/GT cannot be parsed"
          | some (gt_1, gt_2, gt_3) =>
            .transformed (some (.str
              (transform_allele (String.mk gt_1) curr_allele ++
                String.mk [gt_2] ++
                transform_allele (String.mk gt_3) curr_allele)))
      | some (some _) => .panicked "FORMAT/GT must be string"
    else if key = "AD" then
      match sampleGet sample "DP" with
      | none => .panicked "FORMAT/DP must be present"
      | some none => .panicked "FORMAT/DP must be present and not None"
      | some (some (.int dp)) =>
        match v with
        | .arrInt ad_values =>
          match ad_values[allele_no]? with
          | none => .panicked "index out of bounds"
          | some none => .panicked "AD should be integer value"
          | some (some ad) =>
            .transformed (some (.arrInt [some (dp - ad), some ad]))
        | _ => .skip
      | some (some _) => .panicked "FORMAT/DP must be integer"
    else if key = "SQ" then
      match v with
      | .float sq_value => .transformed (some (.float sq_value))
      | .arrFloat sq_values =>
        match sq_values[allele_no - 1]? with
        | none => .panicked "index out of bounds"
        | some none => .panicked "SQ should be float value"
        | some (some sq) => .transformed (some (.float sq))
      | _ => .skip
    else
      .skip

/-- `KnownFormatKeys::output_keys` (lines 74-80). -/
def output_keys : List String := ["GT", "GQ", "DP", "AD", "PS"]

/-- `KnownFormatKeys::known_keys` (lines 81-88). -/
def known_keys : List String := ["GT", "GQ", "DP", "AD", "PS", "SQ"]

/-- `KnownFormatKeys::known_to_output` (lines 101-106): the
`known_to_output_map` holds the single entry SQ to GQ, every other key
maps to itself. -/
def known_to_output (key : String) : String :=
  if key = "SQ" then "GQ" else key

/-- The key filter of `copy_format` (lines 228-234): the input FORMAT
keys that are known, in input order. -/
def keys_from_input_known (input_keys : List String) : List String :=
  input_keys.filter (fun k => known_keys.contains k)

/-- The output key list of `copy_format` (lines 235-238). -/
def copy_format_output_keys (input_keys : List String) : List String :=
  (keys_from_input_known input_keys).map known_to_output

/-- The sentinel used for unmapped output samples (line 345). -/
def usizeMax : Nat := 2 ^ 64 - 1

/-- Modelling the `output_sample_to_idx` HashMap (lines 339-344): the
map is built by inserting (name, index) pairs in order, a later
duplicate overwriting an earlier one, so a lookup yields the index of
the last occurrence of the name. -/
def output_sample_to_idx (outputNames : List String) (name : String) :
    Option Nat :=
  match outputNames with
  | [] => none
  | x :: xs =>
    match output_sample_to_idx xs name with
    | some j => some (j + 1)
    | none => if x = name then some 0 else none

/-- The loop of the re-indexing block (lines 346-349), iterating input
samples: `none` models the panic of `output_sample_to_idx[sample]` at a
missing key. -/
def build_idx_go (outputNames : List String) :
    List String → Nat → List Nat → Option (List Nat)
  | [], _, res => some res
  | s :: rest, input_idx, res =>
    match output_sample_to_idx outputNames s with
    | none => none
    | some oidx =>
      build_idx_go outputNames rest (input_idx + 1) (res.set oidx input_idx)

/-- `idx_output_to_input` construction (lines 338-350): a table of
length `outputNames.length` initialised with `usize::MAX`, then each
input sample writes its index at the position of its name among the
output names. -/
def build_idx_output_to_input (outputNames inputNames : List String) :
    Option (List Nat) :=
  build_idx_go outputNames inputNames 0
    (List.replicate outputNames.length usizeMax)

/-- The four store scopes of the pipeline. -/
inductive StoreLookup where
  | autosomal
  | gonosomal
  | mitochondrial
  | clinical
deriving DecidableEq

/-- The store dispatch for one emitted allele (lines 397-438 of the
source): inside the canonical-contig guard, the frequency store is
chosen by the if-chain over the external membership tables and the
clinvar store is always queried; outside the guard nothing is queried.
The external tables `is_canonical`, `CHROM_AUTO`, `CHROM_XY` and
`CHROM_MT` are parameters. -/
def route_lookups (isCanonical inAuto inXY inMT : String → Bool)
    (chrom : String) : List StoreLookup :=
  if isCanonical chrom then
    (if inAuto chrom then [.autosomal]
     else if inXY chrom then [.gonosomal]
     else if inMT chrom then [.mitochondrial]
     else []) ++ [.clinical]
  else
    []

/-- One input VCF record, restricted to the fields the emission loop
inspects. -/
structure InputRecord where
  chrom : String
  pos : Nat
  ref : String
  alts : List String
deriving DecidableEq

/-- One output record: the builder of lines 365-371 sets the single
alternate allele, `allele_no` is the 1-based allele index. -/
structure EmittedAllele where
  chrom : String
  pos : Nat
  ref : String
  alts : List String
  allele_no : Nat
deriving DecidableEq

/-- Building the output record for one alternate allele
(lines 365-371). -/
def emit_one (r : InputRecord) (allele_no : Nat) (alt : String) :
    EmittedAllele :=
  ⟨r.chrom, r.pos, r.ref, [alt], allele_no⟩

/-- The inner allele loop of `process_variants` (lines 362-471):
`n` is the 1-based index of the first remaining allele; each iteration
is one decomposition attempt (recorded in the first component) and
emits unless the alternate allele is the overlapping-deletion marker
(line 388). -/
def decompose_aux (r : InputRecord) :
    Nat → List String → List Nat × List EmittedAllele
  | _, [] => ([], [])
  | n, alt :: rest =>
    let p := decompose_aux r (n + 1) rest
    if alt = "*" then (n :: p.1, p.2)
    else (n :: p.1, emit_one r n alt :: p.2)

/-- Decomposition of one record: attempts start at allele index 1. -/
def decompose_record (r : InputRecord) : List Nat × List EmittedAllele :=
  decompose_aux r 1 r.alts

/-- Why the record loop stopped: ran out of input, or the
`--max-var-count` limit was reached (line 478, reported by a distinct
warning). -/
inductive StopReason where
  | exhausted
  | limitReached
deriving DecidableEq

/-- The record loop of `process_variants` (lines 358-485): after each
input record is fully decomposed, the emitted count is checked against
the optional limit (lines 476-484). -/
def process_loop (maxVarCount : Option Nat) :
    List InputRecord → Nat → List EmittedAllele × Nat × StopReason
  | [], total => ([], total, .exhausted)
  | r :: rest, total =>
    let emitted := (decompose_record r).2
    let total' := total + emitted.length
    match maxVarCount with
    | some n =>
      if n ≤ total' then (emitted, total', .limitReached)
      else
        let p := process_loop (some n) rest total'
        (emitted ++ p.1, p.2)
    | none =>
      let p := process_loop none rest total'
      (emitted ++ p.1, p.2)

/-- `process_variants` record processing, starting from zero written
records (line 355). -/
def process_variants (maxVarCount : Option Nat)
    (records : List InputRecord) : List EmittedAllele × Nat × StopReason :=
  process_loop maxVarCount records 0

/-- C3: with the total-read-depth field present and integral with value
`D`, an integer allele-depth array holding `A` at position `alleleIndex`
is transformed into exactly the two-element array `[D - A, A]`; a value
that is not an integer array makes the transform decline (skip), not
fail. -/
theorem C3_ad_transform (sample : Sample) (i : Nat) (D A : Int)
    (l : List (Option Int))
    (hDP : sampleGet sample "DP" = some (some (.int D))) :
    (l[i]? = some (some A) →
      transform_format_value (some (.arrInt l)) "AD" i sample =
        .transformed (some (.arrInt [some (D - A), some A]))) ∧
    (∀ v : Value, (∀ l', v ≠ .arrInt l') →
      transform_format_value (some v) "AD" i sample = .skip) := by
  constructor
  · intro hA
    simp [transform_format_value, hDP, hA]
  · intro v hv
    cases v with
    | arrInt l' => exact absurd rfl (hv l')
    | int x => simp [transform_format_value, hDP]
    | float x => simp [transform_format_value, hDP]
    | str x => simp [transform_format_value, hDP]
    | arrFloat x => simp [transform_format_value, hDP]

/-- Witness for C3 at depth 30 and depth array `[10, 12, 8]`, allele
index 1: output `[18, 12]`; and a scalar float input is skipped. -/
theorem C3_ad_transform_witness :
    transform_format_value (some (.arrInt [some 10, some 12, some 8])) "AD" 1
        [("DP", some (.int 30))] =
      .transformed (some (.arrInt [some 18, some 12])) ∧
    transform_format_value (some (.float 1)) "AD" 1 [("DP", some (.int 30))] =
      .skip := by
  constructor
  · exact (C3_ad_transform [("DP", some (.int 30))] 1 30 12
      [some 10, some 12, some 8] rfl).1 rfl
  · exact (C3_ad_transform [("DP", some (.int 30))] 1 30 12
      [some 10, some 12, some 8] rfl).2 (.float 1)
      (fun l' h => Value.noConfusion h)

/-- C4 counterexample: the claim says the secondary-quality transform
applied to `[q1, q2, q3]` at alleleIndex 2 yields `q1`; on the code,
with `q1 = 1, q2 = 2, q3 = 3`, it yields the scalar `2 = q2`, not
`1 = q1`. -/
theorem C4_counterexample :
    transform_format_value (some (.arrFloat [some 1, some 2, some 3])) "SQ" 2 [] =
      .transformed (some (.float 2)) ∧
    (TfResult.transformed (some (.float 2)) ≠ .transformed (some (.float 1))) := by
  constructor
  · rfl
  · decide

/-- C4 (amended): the secondary-quality transform passes a scalar
through unchanged and, for an array input, reads the element at 0-based
position `alleleIndex - 1`; in particular `[q1, q2, q3]` at
alleleIndex 2 yields `q2`. -/
theorem C4_sq_transform (sample : Sample) (i : Nat) (q : Rat)
    (sq_values : List (Option Rat)) :
    (transform_format_value (some (.float q)) "SQ" i sample =
      .transformed (some (.float q))) ∧
    (sq_values[i - 1]? = some (some q) →
      transform_format_value (some (.arrFloat sq_values)) "SQ" i sample =
        .transformed (some (.float q))) := by
  constructor
  · simp [transform_format_value]
  · intro h
    simp [transform_format_value, h]

/-- Witness for C4 (amended) at `[1, 2, 3]`, allele index 2: the
element at 0-based position 1, namely 2, is emitted; a scalar 7 passes
through. -/
theorem C4_sq_transform_witness :
    transform_format_value (some (.arrFloat [some 1, some 2, some 3])) "SQ" 2 [] =
      .transformed (some (.float 2)) ∧
    transform_format_value (some (.float 7)) "SQ" 2 [] =
      .transformed (some (.float 7)) :=
  ⟨(C4_sq_transform [] 2 2 [some 1, some 2, some 3]).2 rfl,
   (C4_sq_transform [] 2 7 [some 1, some 2, some 3]).1⟩

/-- C8: with the total-read-depth field present and integral, the
allele-depth transform indexes the integer array without a bounds or
presence check: a too-short array or a missing element at the indexed
position makes it panic rather than skip or error. -/
theorem C8_ad_unchecked_index (sample : Sample) (i : Nat) (D : Int)
    (l : List (Option Int))
    (hDP : sampleGet sample "DP" = some (some (.int D))) :
    (l.length ≤ i →
      transform_format_value (some (.arrInt l)) "AD" i sample =
        .panicked "index out of bounds") ∧
    (l[i]? = some none →
      transform_format_value (some (.arrInt l)) "AD" i sample =
        .panicked "AD should be integer value") := by
  constructor
  · intro h
    have hg : l[i]? = none := List.getElem?_eq_none h
    simp [transform_format_value, hDP, hg]
  · intro h
    simp [transform_format_value, hDP, h]

/-- Witness for C8: a length-1 depth array indexed at allele 1 panics
with an out-of-bounds message; a missing element at the indexed
position panics with the expect message. -/
theorem C8_ad_unchecked_index_witness :
    transform_format_value (some (.arrInt [some 5])) "AD" 1
        [("DP", some (.int 9))] = .panicked "index out of bounds" ∧
    transform_format_value (some (.arrInt [none])) "AD" 0
        [("DP", some (.int 9))] = .panicked "AD should be integer value" :=
  ⟨(C8_ad_unchecked_index [("DP", some (.int 9))] 1 9 [some 5] rfl).1
      (by decide),
   (C8_ad_unchecked_index [("DP", some (.int 9))] 0 9 [none] rfl).2 rfl⟩

theorem copy_format_output_keys_cons (x : String) (xs : List String) :
    copy_format_output_keys (x :: xs) =
      if x ∈ known_keys then
        known_to_output x :: copy_format_output_keys xs
      else copy_format_output_keys xs := by
  by_cases hc : x ∈ known_keys <;>
    simp [copy_format_output_keys, keys_from_input_known, List.filter_cons, hc]

theorem count_gq_copy_format_output_keys (l : List String) (h : l.Nodup) :
    (copy_format_output_keys l).count "GQ" =
      (if "GQ" ∈ l then 1 else 0) + (if "SQ" ∈ l then 1 else 0) := by
  induction l with
  | nil => simp [copy_format_output_keys, keys_from_input_known]
  | cons x xs ih =>
    rw [List.nodup_cons] at h
    have ihx := ih h.2
    rw [copy_format_output_keys_cons]
    by_cases h1 : x = "GQ"
    · subst h1
      have hGQ : "GQ" ∉ xs := h.1
      simp [known_keys, known_to_output, List.count_cons, ihx, hGQ,
        List.mem_cons]
      exact Nat.add_comm _ 1
    · by_cases h2 : x = "SQ"
      · subst h2
        have hSQ : "SQ" ∉ xs := h.1
        simp [known_keys, known_to_output, List.count_cons, ihx, hSQ,
          List.mem_cons, h1]
      · have hk : known_to_output x = x := by simp [known_to_output, h2]
        have hGQx : ("GQ" : String) ≠ x := Ne.symm h1
        have hSQx : ("SQ" : String) ≠ x := Ne.symm h2
        by_cases hc : x ∈ known_keys
        · rw [if_pos hc, hk, List.count_cons_of_ne hGQx, ihx]
          simp [List.mem_cons, hGQx, hSQx]
        · rw [if_neg hc, ihx]
          simp [List.mem_cons, hGQx, hSQx]

/-- C10: for an input FORMAT key list containing both GQ and SQ, the
output key list computed by `copy_format` contains GQ twice (SQ is
renamed to GQ), so the no-duplicate invariant of the genotype keys can
hold only when at most one of the two keys is present. -/
theorem C10_duplicate_gq_keys (input_keys : List String)
    (h : input_keys.Nodup) :
    (("GQ" ∈ input_keys ∧ "SQ" ∈ input_keys) →
      (copy_format_output_keys input_keys).count "GQ" = 2) ∧
    ((copy_format_output_keys input_keys).Nodup →
      ¬("GQ" ∈ input_keys ∧ "SQ" ∈ input_keys)) := by
  have hcount := count_gq_copy_format_output_keys input_keys h
  constructor
  · rintro ⟨h1, h2⟩
    rw [hcount]
    simp [h1, h2]
  · rintro hnd ⟨h1, h2⟩
    have hle := List.nodup_iff_count_le_one.mp hnd "GQ"
    rw [hcount] at hle
    simp [h1, h2] at hle

/-- Witness for C10 at the duplicate-free input key list
`[GT, GQ, SQ]`: GQ appears twice among the computed output keys. -/
theorem C10_duplicate_gq_keys_witness :
    (copy_format_output_keys ["GT", "GQ", "SQ"]).count "GQ" = 2 :=
  (C10_duplicate_gq_keys ["GT", "GQ", "SQ"] (by decide)).1
    ⟨by decide, by decide⟩

theorem decompose_aux_fst (r : InputRecord) :
    ∀ (alts : List String) (n : Nat),
      (decompose_aux r n alts).1 = List.range' n alts.length := by
  intro alts
  induction alts with
  | nil => intro n; simp [decompose_aux]
  | cons a rest ih =>
    intro n
    by_cases h : a = "*" <;>
      simp [decompose_aux, h, ih, List.range'_succ]

theorem decompose_aux_alts (r : InputRecord) :
    ∀ (alts : List String) (n : Nat),
      ((decompose_aux r n alts).2).map (fun e => e.alts) =
        (alts.filter (fun a => a ≠ "*")).map (fun a => [a]) := by
  intro alts
  induction alts with
  | nil => intro n; simp [decompose_aux]
  | cons a rest ih =>
    intro n
    by_cases h : a = "*" <;>
      simp [decompose_aux, h, ih, List.filter_cons, emit_one]

theorem decompose_aux_len_one (r : InputRecord) :
    ∀ (alts : List String) (n : Nat),
      ∀ e ∈ (decompose_aux r n alts).2, e.alts.length = 1 := by
  intro alts
  induction alts with
  | nil => intro n e he; simp [decompose_aux] at he
  | cons a rest ih =>
    intro n e he
    by_cases h : a = "*"
    · simp [decompose_aux, h] at he
      exact ih (n + 1) e he
    · simp [decompose_aux, h] at he
      rcases he with he | he
      · subst he; rfl
      · exact ih (n + 1) e he

/-- C2: decomposing one input record with k alternate alleles makes
exactly k attempts, at allele indices 1..k in increasing order; exactly
the alleles different from the overlapping-deletion marker are emitted,
in order, each output record carrying exactly one alternate allele, and
the emitted count equals the number of non-"*" alleles (a skipped "*"
allele is not written and not counted). -/
theorem C2_decomposition (r : InputRecord) :
    (decompose_record r).1 = List.range' 1 r.alts.length ∧
    ((decompose_record r).2).map (fun e => e.alts) =
      (r.alts.filter (fun a => a ≠ "*")).map (fun a => [a]) ∧
    (∀ e ∈ (decompose_record r).2, e.alts.length = 1) ∧
    (decompose_record r).2.length =
      (r.alts.filter (fun a => a ≠ "*")).length := by
  refine ⟨decompose_aux_fst r r.alts 1, decompose_aux_alts r r.alts 1,
    decompose_aux_len_one r r.alts 1, ?_⟩
  have h := congrArg List.length (decompose_aux_alts r r.alts 1)
  simpa using h

/-- Witness for C2 at a record with alleles `[C, *, T]`: three
attempts at indices 1, 2, 3; the emitted record for allele 1 has one
alternate allele; two records are emitted. -/
theorem C2_decomposition_witness :
    (decompose_record ⟨"1", 100, "A", ["C", "*", "T"]⟩).1 = [1, 2, 3] ∧
    (emit_one ⟨"1", 100, "A", ["C", "*", "T"]⟩ 1 "C").alts.length = 1 ∧
    (decompose_record ⟨"1", 100, "A", ["C", "*", "T"]⟩).2.length = 2 := by
  refine ⟨(C2_decomposition ⟨"1", 100, "A", ["C", "*", "T"]⟩).1.trans
      (by decide), ?_, (C2_decomposition
      ⟨"1", 100, "A", ["C", "*", "T"]⟩).2.2.2.trans (by decide)⟩
  exact (C2_decomposition ⟨"1", 100, "A", ["C", "*", "T"]⟩).2.2.1
    (emit_one ⟨"1", 100, "A", ["C", "*", "T"]⟩ 1 "C") (by decide)

/-- C6: with the three frequency routing sets pairwise disjoint and
the canonical set their union (as the spec defines canonical), a
mitochondrial chromosome triggers exactly the mitochondrial and
clinvar lookups and never an autosomal or gonosomal one, symmetrically
for the other two sets; a non-canonical chromosome triggers zero
lookups; the clinvar store is queried for every canonical chromosome,
whatever the frequency category. -/
theorem C6_store_routing (isCanonical inAuto inXY inMT : String → Bool)
    (chrom : String)
    (hAutoXY : ¬(inAuto chrom = true ∧ inXY chrom = true))
    (hAutoMT : ¬(inAuto chrom = true ∧ inMT chrom = true))
    (hXYMT : ¬(inXY chrom = true ∧ inMT chrom = true))
    (hCanon : isCanonical chrom = (inAuto chrom || inXY chrom || inMT chrom)) :
    (inMT chrom = true →
      route_lookups isCanonical inAuto inXY inMT chrom =
          [.mitochondrial, .clinical] ∧
      StoreLookup.autosomal ∉ route_lookups isCanonical inAuto inXY inMT chrom ∧
      StoreLookup.gonosomal ∉ route_lookups isCanonical inAuto inXY inMT chrom) ∧
    (inAuto chrom = true →
      route_lookups isCanonical inAuto inXY inMT chrom =
        [.autosomal, .clinical]) ∧
    (inXY chrom = true →
      route_lookups isCanonical inAuto inXY inMT chrom =
        [.gonosomal, .clinical]) ∧
    (isCanonical chrom = false →
      route_lookups isCanonical inAuto inXY inMT chrom = []) ∧
    (isCanonical chrom = true →
      StoreLookup.clinical ∈ route_lookups isCanonical inAuto inXY inMT chrom) := by
  cases hA : inAuto chrom <;> cases hX : inXY chrom <;> cases hM : inMT chrom <;>
    simp_all [route_lookups]

/-- Witness for C6 with concrete singleton routing sets: chromosome MT
yields exactly the mitochondrial and clinvar lookups; an unindexed
contig yields none. -/
theorem C6_store_routing_witness :
    route_lookups (fun c => c == "1" || c == "X" || c == "MT")
        (fun c => c == "1") (fun c => c == "X") (fun c => c == "MT") "MT" =
      [.mitochondrial, .clinical] ∧
    route_lookups (fun c => c == "1" || c == "X" || c == "MT")
        (fun c => c == "1") (fun c => c == "X") (fun c => c == "MT")
        "GL000226.1" = [] :=
  ⟨((C6_store_routing (fun c => c == "1" || c == "X" || c == "MT")
      (fun c => c == "1") (fun c => c == "X") (fun c => c == "MT") "MT"
      (by decide) (by decide) (by decide) rfl).1 (by decide)).1,
   (C6_store_routing (fun c => c == "1" || c == "X" || c == "MT")
      (fun c => c == "1") (fun c => c == "X") (fun c => c == "MT")
      "GL000226.1" (by decide) (by decide) (by decide) rfl).2.2.2.1
      (by decide)⟩

theorem output_sample_to_idx_none_iff (out : List String) (s : String) :
    output_sample_to_idx out s = none ↔ s ∉ out := by
  induction out with
  | nil => simp [output_sample_to_idx]
  | cons x xs ih =>
    cases hx : output_sample_to_idx xs s with
    | some j =>
      have hs : s ∈ xs := by
        by_contra hc
        rw [ih.mpr hc] at hx
        exact Option.noConfusion hx
      simp [output_sample_to_idx, hx, hs]
    | none =>
      have hs : s ∉ xs := ih.mp hx
      by_cases hxs : x = s
      · subst hxs
        simp [output_sample_to_idx, hx]
      · simp [output_sample_to_idx, hx, hxs, hs, Ne.symm hxs]

theorem output_sample_to_idx_get (out : List String) (s : String) (j : Nat)
    (h : output_sample_to_idx out s = some j) : out[j]? = some s := by
  induction out generalizing j with
  | nil => simp [output_sample_to_idx] at h
  | cons x xs ih =>
    simp only [output_sample_to_idx] at h
    cases hx : output_sample_to_idx xs s with
    | some j' =>
      rw [hx] at h
      obtain rfl : j' + 1 = j := Option.some.inj h
      simpa using ih j' hx
    | none =>
      rw [hx] at h
      by_cases hxs : x = s
      · rw [if_pos hxs] at h
        obtain rfl : (0 : Nat) = j := Option.some.inj h
        simp [hxs]
      · rw [if_neg hxs] at h
        exact Option.noConfusion h

theorem output_sample_to_idx_mem (out : List String) (s : String) (j : Nat)
    (h : output_sample_to_idx out s = some j) : s ∈ out := by
  have hg := output_sample_to_idx_get out s j h
  obtain ⟨hlt, rfl⟩ := List.getElem?_eq_some.mp hg
  exact List.getElem_mem hlt

theorem output_sample_to_idx_isSome (out : List String) (s : String)
    (h : s ∈ out) : ∃ j, output_sample_to_idx out s = some j := by
  cases hx : output_sample_to_idx out s with
  | none => exact absurd h (output_sample_to_idx_none_iff out s |>.mp hx)
  | some j => exact ⟨j, rfl⟩

theorem build_idx_go_none (out : List String) :
    ∀ (inp : List String) (k : Nat) (res : List Nat) (s : String),
      s ∈ inp → s ∉ out → build_idx_go out inp k res = none := by
  intro inp
  induction inp with
  | nil => intro k res s hs; simp at hs
  | cons t rest ih =>
    intro k res s hs hout
    cases ht : output_sample_to_idx out t with
    | none => simp [build_idx_go, ht]
    | some oidx =>
      rcases List.mem_cons.mp hs with rfl | hs'
      · exact absurd (output_sample_to_idx_mem out s oidx ht) hout
      · simp only [build_idx_go, ht]
        exact ih (k + 1) (res.set oidx k) s hs' hout

theorem build_idx_go_some_get (out : List String) (j : Nat) :
    ∀ (inp : List String) (k : Nat) (res : List Nat),
      (∀ s ∈ inp, s ∈ out) →
      (∀ s ∈ inp, output_sample_to_idx out s ≠ some j) →
      ∃ r, build_idx_go out inp k res = some r ∧ r[j]? = res[j]? := by
  intro inp
  induction inp with
  | nil => intro k res _ _; exact ⟨res, rfl, rfl⟩
  | cons t rest ih =>
    intro k res hmem hne
    obtain ⟨oidx, ht⟩ := output_sample_to_idx_isSome out t (hmem t (by simp))
    have hne_t : oidx ≠ j := fun hj => hne t (by simp) (hj ▸ ht)
    obtain ⟨r, hr, hg⟩ := ih (k + 1) (res.set oidx k)
      (fun s hs => hmem s (List.mem_cons_of_mem t hs))
      (fun s hs => hne s (List.mem_cons_of_mem t hs))
    refine ⟨r, ?_, ?_⟩
    · simp [build_idx_go, ht, hr]
    · rw [hg, List.getElem?_set_ne hne_t]

/-- C9: the re-indexing table is built by iterating the input sample
names and indexing the map of output names, so an input name missing
from the output list panics the construction (modelled as `none`),
while an output name missing from the input leaves the `usize::MAX`
sentinel at its position with no error. -/
theorem C9_reindex_behavior :
    (∀ (out inp : List String) (s : String), s ∈ inp → s ∉ out →
      build_idx_output_to_input out inp = none) ∧
    (∀ (out inp : List String) (j : Nat) (o : String),
      out[j]? = some o → o ∉ inp → (∀ s ∈ inp, s ∈ out) →
      ∃ res, build_idx_output_to_input out inp = some res ∧
        res[j]? = some usizeMax) := by
  constructor
  · intro out inp s hs hout
    exact build_idx_go_none out inp 0 _ s hs hout
  · intro out inp j o hj ho hmem
    have hne : ∀ s ∈ inp, output_sample_to_idx out s ≠ some j := by
      intro s hs hcontra
      have hg := output_sample_to_idx_get out s j hcontra
      rw [hj] at hg
      obtain rfl : o = s := Option.some.inj hg
      exact ho hs
    obtain ⟨r, hr, hget⟩ := build_idx_go_some_get out j inp 0
      (List.replicate out.length usizeMax) hmem hne
    refine ⟨r, hr, ?_⟩
    rw [hget]
    have hlt : j < out.length := (List.getElem?_eq_some.mp hj).1
    simp [List.getElem?_replicate, hlt]

/-- Witness for C9: input sample B absent from the output list `[A]`
panics; output sample B absent from the input `[A]` leaves the
sentinel at position 1. -/
theorem C9_reindex_behavior_witness :
    build_idx_output_to_input ["A"] ["A", "B"] = none ∧
    ∃ res, build_idx_output_to_input ["A", "B"] ["A"] = some res ∧
      res[1]? = some usizeMax :=
  ⟨C9_reindex_behavior.1 ["A"] ["A", "B"] "B" (by decide) (by decide),
   C9_reindex_behavior.2 ["A", "B"] ["A"] 1 "B" rfl (by decide) (by decide)⟩

/-- C7 counterexample: output sample B does not appear in the input
sample list, yet the construction does not fail — it succeeds and
leaves the `usize::MAX` sentinel, refuting the claimed LookupError. -/
theorem C7_counterexample :
    ("B" ∈ ["A", "B"] ∧ "B" ∉ (["A"] : List String)) ∧
    build_idx_output_to_input ["A", "B"] ["A"] = some [0, usizeMax] := by
  exact ⟨⟨by decide, by decide⟩, rfl⟩

/-- C7 (amended): construction of the re-indexing table succeeds
whenever every input sample name appears among the output names (an
output name absent from the input is not an error, the sentinel is
left); it fails — by a panic, not a LookupError — exactly on an input
sample name that does not appear in the output list; for output order
[B, A] and input order [A, B] the built table is [1, 0]. -/
theorem C7_reindex_contract :
    (∀ (out inp : List String), (∀ s ∈ inp, s ∈ out) →
      ∃ res, build_idx_output_to_input out inp = some res) ∧
    (∀ (out inp : List String) (s : String), s ∈ inp → s ∉ out →
      build_idx_output_to_input out inp = none) ∧
    build_idx_output_to_input ["B", "A"] ["A", "B"] = some [1, 0] := by
  refine ⟨?_, ?_, rfl⟩
  · intro out inp hmem
    have hne : ∀ s ∈ inp, output_sample_to_idx out s ≠ some out.length := by
      intro s hs hcontra
      have hg := output_sample_to_idx_get out s _ hcontra
      have hlt := (List.getElem?_eq_some.mp hg).1
      exact absurd hlt (lt_irrefl _)
    obtain ⟨r, hr, _⟩ := build_idx_go_some_get out out.length inp 0
      (List.replicate out.length usizeMax) hmem hne
    exact ⟨r, hr⟩
  · intro out inp s hs hout
    exact build_idx_go_none out inp 0 _ s hs hout

/-- Witness for C7 (amended): a permuted sample list builds fine, a
disjoint one fails. -/
theorem C7_reindex_contract_witness :
    (∃ res, build_idx_output_to_input ["A", "B"] ["B", "A"] = some res) ∧
    build_idx_output_to_input ["X"] ["Y"] = none :=
  ⟨C7_reindex_contract.1 ["A", "B"] ["B", "A"] (by decide),
   C7_reindex_contract.2.1 ["X"] ["Y"] "Y" (by decide) (by decide)⟩

/-- The whole-record emissions of the first `m` input records. -/
def emittedPrefix (records : List InputRecord) (m : Nat) : List EmittedAllele :=
  ((records.take m).map (fun r => (decompose_record r).2)).flatten

/-- Number of alleles emitted by the first `m` input records. -/
def cumEmitted (records : List InputRecord) (m : Nat) : Nat :=
  (emittedPrefix records m).length

theorem emittedPrefix_zero (records : List InputRecord) :
    emittedPrefix records 0 = [] := rfl

theorem emittedPrefix_cons_succ (r : InputRecord) (rest : List InputRecord)
    (m : Nat) :
    emittedPrefix (r :: rest) (m + 1) =
      (decompose_record r).2 ++ emittedPrefix rest m := by
  simp [emittedPrefix]

theorem cumEmitted_zero (records : List InputRecord) :
    cumEmitted records 0 = 0 := rfl

theorem cumEmitted_cons_succ (r : InputRecord) (rest : List InputRecord)
    (m : Nat) :
    cumEmitted (r :: rest) (m + 1) =
      (decompose_record r).2.length + cumEmitted rest m := by
  simp [cumEmitted, emittedPrefix_cons_succ]

theorem process_loop_cons (n : Nat) (r : InputRecord)
    (rest : List InputRecord) (total : Nat) :
    process_loop (some n) (r :: rest) total =
      if n ≤ total + (decompose_record r).2.length then
        ((decompose_record r).2, total + (decompose_record r).2.length,
          .limitReached)
      else
        ((decompose_record r).2 ++
            (process_loop (some n) rest
              (total + (decompose_record r).2.length)).1,
          (process_loop (some n) rest
            (total + (decompose_record r).2.length)).2) := rfl

theorem process_loop_limit_spec (n : Nat) (records : List InputRecord) :
    ∀ total : Nat, ∃ m, m ≤ records.length ∧
      (process_loop (some n) records total).1 = emittedPrefix records m ∧
      (process_loop (some n) records total).2.1 =
        total + cumEmitted records m ∧
      (((process_loop (some n) records total).2.2 = .limitReached ∧ 1 ≤ m ∧
          n ≤ total + cumEmitted records m ∧
          (∀ j, 1 ≤ j → j < m → total + cumEmitted records j < n)) ∨
        ((process_loop (some n) records total).2.2 = .exhausted ∧
          m = records.length ∧
          (∀ j, 1 ≤ j → j ≤ records.length →
            total + cumEmitted records j < n))) := by
  induction records with
  | nil =>
    intro total
    refine ⟨0, Nat.le_refl 0, rfl, by simp [process_loop, cumEmitted,
      emittedPrefix], ?_⟩
    right
    exact ⟨rfl, rfl, fun j h1 h2 => by simp at h2; omega⟩
  | cons r rest ih =>
    intro total
    by_cases h : n ≤ total + (decompose_record r).2.length
    · refine ⟨1, by simp, ?_, ?_, ?_⟩
      · rw [process_loop_cons, if_pos h, emittedPrefix_cons_succ,
          emittedPrefix_zero, List.append_nil]
      · rw [process_loop_cons, if_pos h]
        show total + (decompose_record r).2.length = total + cumEmitted (r :: rest) 1
        rw [cumEmitted_cons_succ, cumEmitted_zero]
        omega
      · left
        refine ⟨?_, Nat.le_refl 1, ?_, ?_⟩
        · rw [process_loop_cons, if_pos h]
        · rw [cumEmitted_cons_succ, cumEmitted_zero]
          omega
        · intro j h1 h2
          omega
    · obtain ⟨m', hm', h1, h2, h3⟩ :=
        ih (total + (decompose_record r).2.length)
      refine ⟨m' + 1, by simpa using Nat.succ_le_succ hm', ?_, ?_, ?_⟩
      · rw [process_loop_cons, if_neg h]
        show (decompose_record r).2 ++ _ = _
        rw [h1, emittedPrefix_cons_succ]
      · rw [process_loop_cons, if_neg h]
        show (process_loop (some n) rest
          (total + (decompose_record r).2.length)).2.1 = _
        rw [h2, cumEmitted_cons_succ]
        omega
      · have hred : (process_loop (some n) (r :: rest) total).2.2 =
            (process_loop (some n) rest
              (total + (decompose_record r).2.length)).2.2 := by
          rw [process_loop_cons, if_neg h]
        rcases h3 with ⟨hre, _, hub, hlt⟩ | ⟨hre, hmeq, hall⟩
        · left
          refine ⟨hred.trans hre, by omega, ?_, ?_⟩
          · rw [cumEmitted_cons_succ]
            omega
          · intro j hj1 hjlt
            cases j with
            | zero => omega
            | succ j' =>
              rw [cumEmitted_cons_succ]
              rcases Nat.eq_zero_or_pos j' with hz | hp
              · subst hz
                rw [cumEmitted_zero]
                omega
              · have := hlt j' hp (by omega)
                omega
        · right
          refine ⟨hred.trans hre, by simp [hmeq], ?_⟩
          intro j hj1 hjle
          cases j with
          | zero => omega
          | succ j' =>
            rw [cumEmitted_cons_succ]
            rcases Nat.eq_zero_or_pos j' with hz | hp
            · subst hz
              rw [cumEmitted_zero]
              omega
            · have := hall j' hp (by simpa using hjle)
              omega

/-- C5 (amended): with a configured limit N, the pipeline always stops
at a whole-record boundary (the output is the full emission of some
prefix of the input records, never mid-allele); it stops with the
limit-reached reason at the first record boundary where the emitted
count is at least N — so the final count can exceed N when that
boundary record contributed several alleles — and stops with the
distinct input-exhausted reason, having processed every record, when no
boundary reaches N. -/
theorem C5_limit_behavior (n : Nat) (records : List InputRecord) :
    ∃ m, m ≤ records.length ∧
      (process_variants (some n) records).1 = emittedPrefix records m ∧
      (process_variants (some n) records).2.1 = cumEmitted records m ∧
      (((process_variants (some n) records).2.2 = .limitReached ∧ 1 ≤ m ∧
          n ≤ cumEmitted records m ∧
          (∀ j, 1 ≤ j → j < m → cumEmitted records j < n)) ∨
        ((process_variants (some n) records).2.2 = .exhausted ∧
          m = records.length ∧
          (∀ j, 1 ≤ j → j ≤ records.length → cumEmitted records j < n))) ∧
      StopReason.limitReached ≠ StopReason.exhausted := by
  obtain ⟨m, hm, h1, h2, h3⟩ := process_loop_limit_spec n records 0
  simp only [Nat.zero_add] at h2 h3
  exact ⟨m, hm, h1, h2, h3, by decide⟩

/-- C5 counterexample: with limit N = 1 and one input record carrying
two non-"*" alleles, the loop emits 2 alleles, not exactly 1, before
stopping with the limit-reached reason. -/
theorem C5_counterexample :
    (process_variants (some 1) [⟨"1", 100, "A", ["C", "T"]⟩]).2.1 = 2 ∧
    (process_variants (some 1) [⟨"1", 100, "A", ["C", "T"]⟩]).2.2 =
      .limitReached ∧
    (2 : Nat) ≠ 1 := by
  exact ⟨rfl, rfl, by decide⟩

/-- Witness for C5 (amended) at limit 1 and a single two-allele
record. -/
theorem C5_limit_behavior_witness :
    ∃ m, m ≤ 1 ∧
      (process_variants (some 1) [⟨"1", 100, "A", ["C", "T"]⟩]).1 =
        emittedPrefix [⟨"1", 100, "A", ["C", "T"]⟩] m ∧
      (process_variants (some 1) [⟨"1", 100, "A", ["C", "T"]⟩]).2.1 =
        cumEmitted [⟨"1", 100, "A", ["C", "T"]⟩] m ∧
      (((process_variants (some 1) [⟨"1", 100, "A", ["C", "T"]⟩]).2.2 =
            .limitReached ∧ 1 ≤ m ∧
          1 ≤ cumEmitted [⟨"1", 100, "A", ["C", "T"]⟩] m ∧
          (∀ j, 1 ≤ j → j < m →
            cumEmitted [⟨"1", 100, "A", ["C", "T"]⟩] j < 1)) ∨
        ((process_variants (some 1) [⟨"1", 100, "A", ["C", "T"]⟩]).2.2 =
            .exhausted ∧ m = 1 ∧
          (∀ j, 1 ≤ j → j ≤ 1 →
            cumEmitted [⟨"1", 100, "A", ["C", "T"]⟩] j < 1))) ∧
      StopReason.limitReached ≠ StopReason.exhausted :=
  C5_limit_behavior 1 [⟨"1", 100, "A", ["C", "T"]⟩]

theorem takeNonBar_eq_self {l : List Char} (h : ∀ c ∈ l, c ≠ '|') :
    takeNonBar l = l := by
  simp [takeNonBar]
  exact h

theorem takeNonBar_append_bar (a b : List Char) (ha : ∀ c ∈ a, c ≠ '|') :
    takeNonBar (a ++ '|' :: b) = a := by
  induction a with
  | nil => simp [takeNonBar, List.takeWhile_cons]
  | cons x xs ih =>
    have hx : x ≠ '|' := ha x (List.mem_cons_self x xs)
    have hxs := ih (fun c hc => ha c (List.mem_cons_of_mem x hc))
    simp only [takeNonBar, List.cons_append, List.takeWhile_cons] at hxs ⊢
    simp [hx]
    simpa [takeNonBar] using hxs

theorem drop_split_past (a b : List Char) (sep : Char) (k : Nat) :
    (a ++ sep :: b).drop (a.length + 1 + k) = b.drop k := by
  have h1 : a ++ sep :: b = (a ++ [sep]) ++ b := by simp
  have h2 : a.length + 1 + k = (a ++ [sep]).length + k := by simp
  rw [h1, h2, List.drop_append]

theorem trySplit_descend (a b : List Char) (sep : Char)
    (hbC : ∀ c ∈ b, c ≠ '/' ∧ c ≠ '|') :
    ∀ j, j ≤ b.length →
      trySplit (a ++ sep :: b) (a.length + 1 + j) =
        trySplit (a ++ sep :: b) a.length := by
  intro j
  induction j with
  | zero =>
    intro _
    rw [Nat.add_zero]
    have hd : (a ++ sep :: b).drop (a.length + 1) = b := by
      have h0 := drop_split_past a b sep 0
      rw [Nat.add_zero, List.drop_zero] at h0
      exact h0
    show (match (a ++ sep :: b).drop (a.length + 1) with
      | [] => trySplit (a ++ sep :: b) a.length
      | c :: rest =>
        if (c = '/' ∨ c = '|') ∧ takeNonBar rest ≠ [] then
          some ((a ++ sep :: b).take (a.length + 1), c, takeNonBar rest)
        else
          trySplit (a ++ sep :: b) a.length) =
      trySplit (a ++ sep :: b) a.length
    rw [hd]
    cases b with
    | nil => rfl
    | cons c rest' =>
      have hc := hbC c (List.mem_cons_self c rest')
      exact if_neg (fun hcond => hcond.1.elim hc.1 hc.2)
  | succ j ihj =>
    intro hj
    have hshape : a.length + 1 + (j + 1) = (a.length + 1 + j) + 1 := by omega
    rw [hshape]
    have hd : (a ++ sep :: b).drop (a.length + 1 + j + 1) = b.drop (j + 1) := by
      have h0 := drop_split_past a b sep (j + 1)
      have harith : a.length + 1 + (j + 1) = a.length + 1 + j + 1 := by omega
      rw [harith] at h0
      exact h0
    show (match (a ++ sep :: b).drop (a.length + 1 + j + 1) with
      | [] => trySplit (a ++ sep :: b) (a.length + 1 + j)
      | c :: rest =>
        if (c = '/' ∨ c = '|') ∧ takeNonBar rest ≠ [] then
          some ((a ++ sep :: b).take (a.length + 1 + j + 1), c, takeNonBar rest)
        else
          trySplit (a ++ sep :: b) (a.length + 1 + j)) =
      trySplit (a ++ sep :: b) a.length
    rw [hd]
    cases hbd : b.drop (j + 1) with
    | nil => exact ihj (by omega)
    | cons c rest' =>
      have hc : c ∈ b :=
        (List.drop_sublist (j + 1) b).mem (hbd ▸ List.mem_cons_self c rest')
      have hcc := hbC c hc
      show (if (c = '/' ∨ c = '|') ∧ takeNonBar rest' ≠ [] then
          some ((a ++ sep :: b).take (a.length + 1 + j + 1), c,
            takeNonBar rest')
        else trySplit (a ++ sep :: b) (a.length + 1 + j)) =
        trySplit (a ++ sep :: b) a.length
      rw [if_neg (fun hcond => hcond.1.elim hcc.1 hcc.2)]
      exact ihj (by omega)

theorem trySplit_at_split (a b : List Char) (sep : Char) (ha : a ≠ [])
    (hb : b ≠ []) (hsep : sep = '/' ∨ sep = '|')
    (hbBar : ∀ c ∈ b, c ≠ '|') :
    trySplit (a ++ sep :: b) a.length = some (a, sep, b) := by
  obtain ⟨m, hm⟩ : ∃ m, a.length = m + 1 := by
    cases a with
    | nil => exact absurd rfl ha
    | cons x xs => exact ⟨xs.length, by simp⟩
  rw [hm]
  have hd : (a ++ sep :: b).drop (m + 1) = sep :: b := by
    rw [← hm]
    exact List.drop_left a (sep :: b)
  have ht : (a ++ sep :: b).take (m + 1) = a := by
    rw [← hm]
    exact List.take_left a (sep :: b)
  show (match (a ++ sep :: b).drop (m + 1) with
    | [] => trySplit (a ++ sep :: b) m
    | c :: rest =>
      if (c = '/' ∨ c = '|') ∧ takeNonBar rest ≠ [] then
        some ((a ++ sep :: b).take (m + 1), c, takeNonBar rest)
      else
        trySplit (a ++ sep :: b) m) = some (a, sep, b)
  rw [hd]
  show (if (sep = '/' ∨ sep = '|') ∧ takeNonBar b ≠ [] then
      some ((a ++ sep :: b).take (m + 1), sep, takeNonBar b)
    else trySplit (a ++ sep :: b) m) = some (a, sep, b)
  rw [if_pos ⟨hsep, by rw [takeNonBar_eq_self hbBar]; exact hb⟩]
  rw [ht, takeNonBar_eq_self hbBar]

theorem matchFrom_split (a b : List Char) (sep : Char) (ha : a ≠ [])
    (hb : b ≠ []) (hsep : sep = '/' ∨ sep = '|')
    (haC : ∀ c ∈ a, c ≠ '/' ∧ c ≠ '|')
    (hbC : ∀ c ∈ b, c ≠ '/' ∧ c ≠ '|') :
    matchFrom (a ++ sep :: b) = some (a, sep, b) := by
  unfold matchFrom
  rcases hsep with h | h
  · subst h
    have hAll : ∀ c ∈ a ++ '/' :: b, c ≠ '|' := by
      intro c hc
      rcases List.mem_append.mp hc with h1 | h1
      · exact (haC c h1).2
      · rcases List.mem_cons.mp h1 with rfl | h2
        · decide
        · exact (hbC c h2).2
    rw [takeNonBar_eq_self hAll]
    have hlen : (a ++ '/' :: b).length = a.length + 1 + b.length := by
      simp
      omega
    rw [hlen, trySplit_descend a b '/' hbC b.length (Nat.le_refl _)]
    exact trySplit_at_split a b '/' ha hb (Or.inl rfl)
      (fun c hc => (hbC c hc).2)
  · subst h
    rw [takeNonBar_append_bar a b (fun c hc => (haC c hc).2)]
    exact trySplit_at_split a b '|' ha hb (Or.inr rfl)
      (fun c hc => (hbC c hc).2)

theorem gtCaptures_split (a b : List Char) (sep : Char) (ha : a ≠ [])
    (hb : b ≠ []) (hsep : sep = '/' ∨ sep = '|')
    (haC : ∀ c ∈ a, c ≠ '/' ∧ c ≠ '|')
    (hbC : ∀ c ∈ b, c ≠ '/' ∧ c ≠ '|') :
    gtCaptures (a ++ sep :: b) = some (a, sep, b) := by
  have hm := matchFrom_split a b sep ha hb hsep haC hbC
  obtain ⟨x, a', rfl⟩ := List.exists_cons_of_ne_nil ha
  rw [List.cons_append] at hm ⊢
  simp [gtCaptures, hm]

/-- C1: the genotype transform passes a no-call string (exactly "./.",
".|." or ".") through unchanged for any allele index; any other
genotype string of the form allele-sep-allele with separator / or |
(both sides nonempty and separator-free) is rewritten side by side,
a side becoming "1" exactly when it equals the allele index in string
form and "0" otherwise, the separator preserved. -/
theorem C1_gt_transform (sample : Sample) (i : Nat) (gt : String) (v : Value)
    (hGT : sampleGet sample "GT" = some (some (.str gt))) :
    ((gt = "./." ∨ gt = ".|." ∨ gt = ".") →
      transform_format_value (some v) "GT" i sample =
        .transformed (some (.str gt))) ∧
    (∀ (a b : List Char) (sep : Char),
      gt.data = a ++ sep :: b →
      ¬(gt = "./." ∨ gt = ".|." ∨ gt = ".") →
      a ≠ [] → b ≠ [] → (sep = '/' ∨ sep = '|') →
      (∀ c ∈ a, c ≠ '/' ∧ c ≠ '|') → (∀ c ∈ b, c ≠ '/' ∧ c ≠ '|') →
      transform_format_value (some v) "GT" i sample =
        .transformed (some (.str
          ((if String.mk a = toString i then "1" else "0") ++
            String.mk [sep] ++
            (if String.mk b = toString i then "1" else "0"))))) := by
  constructor
  · intro h
    simp [transform_format_value, hGT, h]
  · intro a b sep hdata hno ha hb hsep haC hbC
    have hcap : gtCaptures gt.data = some (a, sep, b) := by
      rw [hdata]
      exact gtCaptures_split a b sep ha hb hsep haC hbC
    simp [transform_format_value, hGT, hno, hcap, transform_allele]

/-- Witness for C1: "2/3" at allele index 2 becomes "1/0", at index 3
becomes "0/1"; the no-call ".|." is unchanged at any index. -/
theorem C1_gt_transform_witness :
    transform_format_value (some (.str "2/3")) "GT" 2
        [("GT", some (.str "2/3"))] = .transformed (some (.str "1/0")) ∧
    transform_format_value (some (.str "2/3")) "GT" 3
        [("GT", some (.str "2/3"))] = .transformed (some (.str "0/1")) ∧
    transform_format_value (some (.str ".|.")) "GT" 7
        [("GT", some (.str ".|."))] = .transformed (some (.str ".|.")) := by
  refine ⟨?_, ?_, ?_⟩
  · have h := (C1_gt_transform [("GT", some (.str "2/3"))] 2 "2/3"
      (.str "2/3") rfl).2 ['2'] ['3'] '/' rfl (by decide) (by decide)
      (by decide) (by decide) (by decide) (by decide)
    rw [h]
    rfl
  · have h := (C1_gt_transform [("GT", some (.str "2/3"))] 3 "2/3"
      (.str "2/3") rfl).2 ['2'] ['3'] '/' rfl (by decide) (by decide)
      (by decide) (by decide) (by decide) (by decide)
    rw [h]
    rfl
  · exact (C1_gt_transform [("GT", some (.str ".|."))] 7 ".|."
      (.str ".|.") rfl).1 (by decide)

end VarfishIngest
